import Mathlib

/-
Verification of the metric-im data-server core: the merge engine
(constructModifier in src/index.mjs), the account-scoped routes, the remove
operation, the trash subsystem (src/Trash.mjs) and the referential guard.
Documents are modelled as association lists of field name to JSON-like value,
matching the schemaless store; JS object-key iteration order is the list order.
-/

namespace DataServer

/-- A JSON-like value as stored in a document field. `time` models a JS Date
by its epoch milliseconds. -/
inductive Value where
  | str : String → Value
  | num : Int → Value
  | bool : Bool → Value
  | time : Nat → Value
  | arr : List Value → Value
  | obj : List (String × Value) → Value
  | null : Value

mutual
/-- Structural (deep) equality of values, as the store compares them. -/
def Value.beq : Value → Value → Bool
  | .str a, .str b => a == b
  | .num a, .num b => a == b
  | .bool a, .bool b => a == b
  | .time a, .time b => a == b
  | .null, .null => true
  | .arr as, .arr bs => Value.listBeq as bs
  | .obj as, .obj bs => Value.fieldsBeq as bs
  | _, _ => false

/-- Elementwise equality of value lists. -/
def Value.listBeq : List Value → List Value → Bool
  | [], [] => true
  | a :: as, b :: bs => Value.beq a b && Value.listBeq as bs
  | _, _ => false

/-- Elementwise equality of field lists. -/
def Value.fieldsBeq : List (String × Value) → List (String × Value) → Bool
  | [], [] => true
  | (k, a) :: as, (k2, b) :: bs => k == k2 && Value.beq a b && Value.fieldsBeq as bs
  | _, _ => false
end

theorem Value.beq_iff_eq : ∀ a b : Value, Value.beq a b = true ↔ a = b := by
  apply Value.beq.induct
    (fun a b => Value.beq a b = true ↔ a = b)
    (fun as bs => Value.fieldsBeq as bs = true ↔ as = bs)
    (fun as bs => Value.listBeq as bs = true ↔ as = bs)
  · intro a b; simp [Value.beq]
  · intro a b; simp [Value.beq]
  · intro a b; simp [Value.beq]
  · intro a b; simp [Value.beq]
  · simp [Value.beq]
  · intro as bs ih; simpa [Value.beq] using ih
  · intro as bs ih; simpa [Value.beq] using ih
  · intro t x hs hn hb ht hnull harr hobj
    have hne : t ≠ x := by
      intro h
      subst h
      cases t with
      | str a => exact hs a a rfl rfl
      | num a => exact hn a a rfl rfl
      | bool a => exact hb a a rfl rfl
      | time a => exact ht a a rfl rfl
      | arr l => exact harr l l rfl rfl
      | obj l => exact hobj l l rfl rfl
      | null => exact hnull rfl rfl
    have hbf : Value.beq t x = false := by
      cases t <;> cases x <;>
        first
          | rfl
          | exact (hs _ _ rfl rfl).elim
          | exact (hn _ _ rfl rfl).elim
          | exact (hb _ _ rfl rfl).elim
          | exact (ht _ _ rfl rfl).elim
          | exact (hnull rfl rfl).elim
          | exact (harr _ _ rfl rfl).elim
          | exact (hobj _ _ rfl rfl).elim
    simp [hbf, hne]
  · simp [Value.listBeq]
  · intro a as b bs ih1 ih2; simp [Value.listBeq, ih1, ih2]
  · intro t x h1 h2
    have hne : t ≠ x := by
      intro h
      subst h
      cases t with
      | nil => exact h1 rfl rfl
      | cons a as => exact h2 a as a as rfl rfl
    have hbf : Value.listBeq t x = false := by
      cases t <;> cases x <;>
        first
          | rfl
          | exact (h1 rfl rfl).elim
          | exact (h2 _ _ _ _ rfl rfl).elim
    simp [hbf, hne]
  · simp [Value.fieldsBeq]
  · intro k a as k2 b bs ih1 ih2; simp [Value.fieldsBeq, ih1, ih2]
  · intro t x h1 h2
    have hne : t ≠ x := by
      intro h
      subst h
      cases t with
      | nil => exact h1 rfl rfl
      | cons p ps => exact h2 p.1 p.2 ps p.1 p.2 ps rfl rfl
    have hbf : Value.fieldsBeq t x = false := by
      cases t <;> cases x <;>
        first
          | rfl
          | exact (h1 rfl rfl).elim
          | exact (h2 _ _ _ _ _ _ rfl rfl).elim
    simp [hbf, hne]

instance : DecidableEq Value := fun a b => decidable_of_iff _ (Value.beq_iff_eq a b)

instance {ε α : Type} [DecidableEq ε] [DecidableEq α] :
    DecidableEq (Except ε α) := fun a b =>
  match a, b with
  | .ok x, .ok y =>
      if h : x = y then .isTrue (h ▸ rfl)
      else .isFalse (fun hh => h (Except.ok.inj hh))
  | .error x, .error y =>
      if h : x = y then .isTrue (h ▸ rfl)
      else .isFalse (fun hh => h (Except.error.inj hh))
  | .ok _, .error _ => .isFalse (fun hh => nomatch hh)
  | .error _, .ok _ => .isFalse (fun hh => nomatch hh)

/-- A document: ordered field list, as a JS object delivered to the store. -/
abbrev Doc := List (String × Value)

/-- JS truthiness of a value (empty string, zero, false and null are falsy). -/
def Value.truthy : Value → Bool
  | .str s => s ≠ ""
  | .num n => n ≠ 0
  | .bool b => b
  | .time _ => true
  | .arr _ => true
  | .obj _ => true
  | .null => false

/-- The field list of an object value (empty for non-objects). -/
def Value.objFields : Value → Doc
  | .obj d => d
  | _ => []

/-- The string form of a document id used when composing trash keys. -/
def Value.asIdString : Value → String
  | .str s => s
  | .num n => toString n
  | _ => ""

/-- Field lookup, `doc[k]`. -/
def dget (d : Doc) (k : String) : Option Value :=
  (d.find? (fun p => p.1 = k)).map (fun p => p.2)

/-- Field assignment, `doc[k] = v`: updates every entry of that key in place
if present, else appends (JS objects carry each key once). -/
def dset (d : Doc) (k : String) (v : Value) : Doc :=
  if d.any (fun p => p.1 = k) then
    d.map (fun p => if p.1 = k then (k, v) else p)
  else d ++ [(k, v)]

/-- Field removal, `delete doc[k]`. -/
def dremove (d : Doc) (k : String) : Doc :=
  d.filter (fun p => p.1 ≠ k)

/-- JS truthiness of `doc[k]` (an absent field is falsy). -/
def dtruthy (d : Doc) (k : String) : Bool :=
  match dget d k with
  | some v => v.truthy
  | none => false

/-- `Object.assign(target, src)`: src's fields override target's, in order. -/
def objAssign (target src : Doc) : Doc :=
  src.foldl (fun acc p => dset acc p.1 p.2) target

/-- Conjunctive equality match of a selector against a document, standing in
for the external store's filter evaluation on the selectors this layer builds. -/
def docMatches (sel : Doc) (d : Doc) : Bool :=
  sel.all (fun p => dget d p.1 = some p.2)

/-- Replace the first list element satisfying `p` by its image under `f`
(`updateOne` touches a single document). -/
def updateFirst {α : Type} (p : α → Bool) (f : α → α) : List α → List α
  | [] => []
  | a :: rest => if p a then f a :: rest else a :: updateFirst p f rest

/-- JS String.split on commas, character by character. -/
def splitCommaAux : List Char → List Char → List String
  | [], acc => [String.mk acc.reverse]
  | c :: rest, acc =>
      if c = ',' then String.mk acc.reverse :: splitCommaAux rest []
      else splitCommaAux rest (c :: acc)

/-- `s.split(',')`: the comma-separated pieces of a string (an empty string
yields one empty piece, as in JS). -/
def splitComma (s : String) : List String :=
  splitCommaAux s.data []

/-- The session context attached to a request (`req.account`). -/
structure Account where
  id : String
  userId : String
  isSuper : Bool
deriving DecidableEq

/-- Failure outcomes surfaced by the operations. -/
inductive Err where
  | auth : Err
  | err : String → Err
  | referenceError : String → Err
  | locked : List (String × List String) → Err
deriving DecidableEq

/-- Access level resolved by the middleware on `/data/:collection/:item?`
(src/index.mjs lines 46-53): read by default, write for PUT, and for DELETE
the safe-delete option selects the level. -/
def accessLevel (safeDelete : Bool) (method : String) : String :=
  let level := "read"
  let level := if method = "PUT" then "write" else level
  let level := if method = "DELETE" then (if safeDelete then "create" else "owner") else level
  level

/-- GET /data/:collection/:item? handler (src/index.mjs lines 85-104):
reject a non-superuser whose session account is outside the resolved
read-level set, scope the selector to the session account, merge the
caller's where filter over it with Object.assign, sort (the external
store's sort, an arbitrary reordering passed in as `sortFn`), and cut the
result at the configured limit. The selector construction: scope to the
session account, narrow to the item id, then Object.assign with the
caller's where filter. -/
def findSelector (account : Account) (item : Option String)
    (whereOpt : Option Doc) : Doc :=
  let selector : Doc := [("_account", .str account.id)]
  let selector := match item with
    | some i => dset selector "_id" (.str i)
    | none => selector
  match whereOpt with
  | some w => objAssign selector w
  | none => selector

/-- The rest of the GET /data/:collection/:item? handler: the superuser or
session-account gate, the filtered and sorted cursor, and the limit cut. -/
def findRoute (account : Account) (availableAccounts : List String)
    (coll : List Doc) (item : Option String) (whereOpt : Option Doc)
    (sortFn : List Doc → List Doc) (limit : Option Nat) :
    Except Err (List Doc) :=
  if ¬account.isSuper ∧ ¬availableAccounts.contains account.id then .error .auth
  else
    let results := sortFn (coll.filter (docMatches
      (findSelector account item whereOpt)))
    let results := match limit with
      | some n => results.take n
      | none => results
    .ok results

/-- The id argument of remove: a JS value that is undefined, a single string
or an array of id strings. -/
inductive RemoveIds where
  | undef : RemoveIds
  | one : String → RemoveIds
  | many : List String → RemoveIds
deriving DecidableEq

/-- Does the remove selector — _account equal to the session account and
_id among the listed ids — match this document? -/
def removeMatch (acctId : String) (ids : List String) (d : Doc) : Bool :=
  (dget d "_account" = some (Value.str acctId)) &&
  (match dget d "_id" with
   | some (.str s) => ids.contains s
   | _ => false)

/-- DataServer.remove (src/index.mjs lines 166-171): reject a falsy id,
normalize a single string to a one-element array, and deleteMany with the
selector scoped to the session account. Returns the surviving collection. -/
def remove (account : Account) (coll : List Doc) (ids : RemoveIds) :
    Except Err (List Doc) :=
  match ids with
  | .undef => .error (.err "no id provided")
  | .one s =>
      if s = "" then .error (.err "no id provided")
      else .ok (coll.filter (fun d => ¬removeMatch account.id [s] d))
  | .many l => .ok (coll.filter (fun d => ¬removeMatch account.id l d))

/-- DELETE /data/:collection/:ids handler together with its access-level
middleware (src/index.mjs lines 46-53 and 114-122): resolve the level from
the safe-delete option, fetch the level's account set from the acl oracle,
gate on the session account, split the comma list and call remove. -/
def deleteRoute (safeDelete : Bool) (acl : String → List String)
    (account : Account) (coll : List Doc) (idsParam : String) :
    Except Err (List Doc) :=
  let avail := acl (accessLevel safeDelete "DELETE")
  if ¬account.isSuper ∧ ¬avail.contains account.id then .error .auth
  else remove account coll (.many (splitComma idsParam))

/-- The update document built by constructModifier: the plain $set bucket,
the five passthrough operator sub-documents, and the $setOnInsert bucket. -/
structure Modifier where
  set : Doc
  push : Option Doc
  pull : Option Doc
  addToSet : Option Doc
  unset : Option Doc
  setOnInsert : Doc
deriving DecidableEq

/-- One iteration of constructModifier's field loop (src/index.mjs 225-228):
a recognized operator key is copied verbatim into the modifier, any other
non-protected field goes into the plain $set bucket. -/
def modifierStep (m : Modifier) (p : String × Value) : Modifier :=
  if p.1 = "$push" then { m with push := some p.2.objFields }
  else if p.1 = "$pull" then { m with pull := some p.2.objFields }
  else if p.1 = "$addToSet" then { m with addToSet := some p.2.objFields }
  else if p.1 = "$unset" then { m with unset := some p.2.objFields }
  else if p.1 = "$set" then { m with set := p.2.objFields }
  else if p.1 = "_id" ∨ p.1 = "_created" ∨ p.1 = "_createdBy" then m
  else { m with set := dset m.set p.1 p.2 }

/-- constructModifier (src/index.mjs lines 223-233): loop the payload's
fields, then stamp _modified into $set and populate $setOnInsert with
_created and, when the payload carries no truthy _createdBy, the caller's
user id. -/
def constructModifier (userId : String) (now : Nat) (doc : Doc) : Modifier :=
  let m := doc.foldl modifierStep
    { set := [], push := none, pull := none, addToSet := none,
      unset := none, setOnInsert := [] }
  let m := { m with set := dset m.set "_modified" (.time now) }
  let soi : Doc := [("_created", Value.time now)]
  let soi := if dtruthy doc "_createdBy" then soi else dset soi "_createdBy" (.str userId)
  { m with setOnInsert := soi }

/-- Apply a field-indexed update operator sub-document left to right, each
field receiving a value computed by `g` from the accumulator and the entry. -/
def applyFieldOps (g : Doc → String × Value → Value) (d : Doc) (s : Doc) : Doc :=
  s.foldl (fun acc p => dset acc p.1 (g acc p)) d

/-- $set application. -/
def applySetDoc : Doc → Doc → Doc := applyFieldOps (fun _ p => p.2)

/-- The array currently held by a field ($push and friends treat a missing
field as the empty array). -/
def getArr (d : Doc) (k : String) : List Value :=
  match dget d k with
  | some (.arr l) => l
  | _ => []

/-- $push application (append to array field). -/
def applyPushDoc : Doc → Doc → Doc :=
  applyFieldOps (fun acc p => .arr (getArr acc p.1 ++ [p.2]))

/-- $addToSet application (append when absent). -/
def applyAddToSetDoc : Doc → Doc → Doc :=
  applyFieldOps (fun acc p =>
    .arr (if (getArr acc p.1).contains p.2 then getArr acc p.1 else getArr acc p.1 ++ [p.2]))

/-- $pull application (remove matching array elements). -/
def applyPullDoc : Doc → Doc → Doc :=
  applyFieldOps (fun acc p => .arr ((getArr acc p.1).filter (fun x => x ≠ p.2)))

/-- $unset application (field removal). -/
def applyUnsetDoc (d : Doc) (s : Doc) : Doc :=
  s.foldl (fun acc p => dremove acc p.1) d

/-- Apply an optional operator sub-document. -/
def optApply (f : Doc → Doc → Doc) (d : Doc) : Option Doc → Doc
  | some s => f d s
  | none => d

/-- The store's application of a built modifier to one document:
$setOnInsert fires only on the insert path, then the other operators apply
(field sets, then unsets, then the array operators). -/
def applyModifier (m : Modifier) (isInsert : Bool) (d : Doc) : Doc :=
  let d := if isInsert then applySetDoc d m.setOnInsert else d
  let d := applySetDoc d m.set
  let d := optApply applyUnsetDoc d m.unset
  let d := optApply applyPushDoc d m.push
  let d := optApply applyAddToSetDoc d m.addToSet
  optApply applyPullDoc d m.pull

/-- Store upsert against an id-equality filter: update the first matching
document, or insert a new one seeded with the filter's id. -/
def upsertById (coll : List Doc) (targetId : Value) (m : Modifier) : List Doc :=
  if coll.any (fun d => dget d "_id" = some targetId) then
    updateFirst (fun d => dget d "_id" = some targetId) (applyModifier m false) coll
  else coll ++ [applyModifier m true [("_id", targetId)]]

/-- The account set put works against (src/index.mjs 189-191): the write-level
accounts from the acl oracle, plus the session account for a superuser. -/
def writableAccounts (aclWrite : List String) (account : Account) : List String :=
  aclWrite ++ (if account.isSuper then [account.id] else [])

/-- Is the document's _account a string found in the caller's account set
(JS Array.includes against a string list)? -/
def accountAllowed (accounts : List String) (o : Doc) : Bool :=
  match dget o "_account" with
  | some (.str s) => accounts.contains s
  | _ => false

/-- Is this batch item skipped by put: a truthy _account outside the
caller's writable set? -/
def isForeign (accounts : List String) (o : Doc) : Bool :=
  dtruthy o "_account" && ¬accountAllowed accounts o

/-- How many items of a batch are skipped for a foreign _account. -/
def foreignCount (accounts : List String) (body : List Doc) : Nat :=
  body.countP (isForeign accounts)

/-- The upsert filter id for one payload: its truthy _id, else a generated
dated id. -/
def targetIdOf (o : Doc) (genId : String) : Value :=
  if dtruthy o "_id" then (dget o "_id").getD .null else .str genId

/-- One updateOne entry of the batch bulkWrite. -/
structure WriteOp where
  filterId : Value
  update : Modifier
deriving DecidableEq

/-- The bulkWrite list put builds for a batch (src/index.mjs 195-203):
an item without a truthy _account is stamped with the session account; an
item with a foreign _account is silently skipped; every kept item becomes
one upsert. -/
def batchWrites (accounts : List String) (account : Account) (now : Nat)
    (genId : Nat → String) : List Doc → Nat → List WriteOp
  | [], _ => []
  | o :: rest, i =>
    if ¬dtruthy o "_account" then
      let o2 := dset o "_account" (.str account.id)
      ⟨targetIdOf o2 (genId i), constructModifier account.userId now o2⟩ ::
        batchWrites accounts account now genId rest (i + 1)
    else if accountAllowed accounts o then
      ⟨targetIdOf o (genId i), constructModifier account.userId now o⟩ ::
        batchWrites accounts account now genId rest (i + 1)
    else batchWrites accounts account now genId rest (i + 1)

/-- The batch write summary the store reports. -/
structure Counts where
  upsertedCount : Nat
  modifiedCount : Nat
deriving DecidableEq

/-- The store's bulkWrite of upserts (external boundary per the spec's §6:
it applies each updateOne and reports how many inserted and how many
modified). -/
def bulkUpsert : List Doc → List WriteOp → List Doc × Counts
  | coll, [] => (coll, ⟨0, 0⟩)
  | coll, w :: rest =>
    if coll.any (fun d => dget d "_id" = some w.filterId) then
      let coll2 := updateFirst (fun d => dget d "_id" = some w.filterId)
        (applyModifier w.update false) coll
      let r := bulkUpsert coll2 rest
      (r.1, { r.2 with modifiedCount := r.2.modifiedCount + 1 })
    else
      let coll2 := coll ++ [applyModifier w.update true [("_id", w.filterId)]]
      let r := bulkUpsert coll2 rest
      (r.1, { r.2 with upsertedCount := r.2.upsertedCount + 1 })

/-- put with an array body (src/index.mjs 192-205): an empty batch is a hard
error; otherwise build the writes, issue them as one bulkWrite, and return
the resulting collection with the counts. -/
def putBatch (aclWrite : List String) (account : Account) (coll : List Doc)
    (body : List Doc) (genId : Nat → String) (now : Nat) :
    Except Err (List Doc × Counts) :=
  if body.isEmpty then .error (.err "Empty data set")
  else
    let accounts := writableAccounts aclWrite account
    .ok (bulkUpsert coll (batchWrites accounts account now genId body 0))

/-- What the caller of a batch put receives: only the two counts. -/
def putBatchResult (aclWrite : List String) (account : Account)
    (coll : List Doc) (body : List Doc) (genId : Nat → String) (now : Nat) :
    Except Err Counts :=
  (putBatch aclWrite account coll body genId now).map (fun r => r.2)

/-- put with a single object body (src/index.mjs 206-221): resolve the target
id from the body's _id, then the explicit id, then a generated one; stamp a
missing _account with the session account or reject a foreign one with 401;
upsert through constructModifier. Returns the updated collection. -/
def putSingle (aclWrite : List String) (account : Account) (coll : List Doc)
    (body : Doc) (urlId : Option String) (genId : String) (now : Nat) :
    Except Err (List Doc) :=
  let accounts := writableAccounts aclWrite account
  let targetId : Value :=
    if dtruthy body "_id" then (dget body "_id").getD .null
    else match urlId with
      | some s => if s = "" then .str genId else .str s
      | none => .str genId
  if ¬dtruthy body "_account" then
    let body2 := dset body "_account" (.str account.id)
    .ok (upsertById coll targetId (constructModifier account.userId now body2))
  else if accountAllowed accounts body then
    .ok (upsertById coll targetId (constructModifier account.userId now body))
  else .error .auth

/-- A record of the trash holding collection (src/Trash.mjs): the composite
key written on insert, the origin collection, the original id, the full
snapshot, and the audit stamps. -/
structure TrashRecord where
  tid : String
  col : String
  oid : Value
  o : Doc
  created : Nat
  createdBy : String
  modified : Nat
deriving DecidableEq

/-- The database: named origin collections plus the trash collection. -/
structure Store where
  colls : List (String × List Doc)
  trash : List TrashRecord
deriving DecidableEq

/-- The documents of a named collection. -/
def getColl (st : Store) (name : String) : List Doc :=
  ((st.colls.find? (fun p => p.1 = name)).map (fun p => p.2)).getD []

/-- Replace a named collection's contents. -/
def setColl (cs : List (String × List Doc)) (name : String) (docs : List Doc) :
    List (String × List Doc) :=
  if cs.any (fun p => p.1 = name) then
    cs.map (fun p => if p.1 = name then (name, docs) else p)
  else cs ++ [(name, docs)]

/-- The store find with an id-membership selector, as Trash.put uses to load
the documents to move. -/
def fetchByIds (coll : List Doc) (ids : List String) : List Doc :=
  coll.filter (fun d =>
    match dget d "_id" with
    | some (.str s) => ids.contains s
    | _ => false)

/-- One updateOne entry of Trash.put's bulkWrite (src/Trash.mjs 105-108):
the filter on origin collection and original id, the insert-only identity
and audit fields, and the always-set snapshot and modification stamp. -/
structure TrashWrite where
  filterCol : String
  filterOid : Value
  soiId : String
  soiCreated : Nat
  soiCreatedBy : String
  setO : Doc
  setModified : Nat
deriving DecidableEq

/-- Build the trash write for one document: keyed by collection and the
document's id, with the composite trash id under insert-only semantics. -/
def trashWriteFor (account : Account) (col : String) (now : Nat) (o : Doc) :
    TrashWrite :=
  let oid := (dget o "_id").getD .null
  { filterCol := col, filterOid := oid,
    soiId := col ++ "::" ++ oid.asIdString,
    soiCreated := now, soiCreatedBy := account.userId,
    setO := o, setModified := now }

/-- Does a trash write's filter match this record? -/
def trashWriteMatch (w : TrashWrite) (r : TrashRecord) : Bool :=
  r.col = w.filterCol ∧ r.oid = w.filterOid

/-- Apply one trash upsert: update the first record the filter matches
(only the $set fields change), else insert a fresh record whose identity
comes from $setOnInsert. -/
def applyTrashWrite (trash : List TrashRecord) (w : TrashWrite) :
    List TrashRecord :=
  if trash.any (trashWriteMatch w) then
    updateFirst (trashWriteMatch w)
      (fun r => { r with o := w.setO, modified := w.setModified }) trash
  else trash ++
    [{ tid := w.soiId, col := w.filterCol, oid := w.filterOid, o := w.setO,
       created := w.soiCreated, createdBy := w.soiCreatedBy,
       modified := w.setModified }]

/-- The two store operations Trash.put issues. -/
inductive TrashOp where
  | bulkWriteTrash : List TrashWrite → TrashOp
  | deleteOrigin : String → List Value → TrashOp
deriving DecidableEq

/-- The ids argument of Trash.put: a comma string, raw id strings, or
already-loaded documents. -/
inductive TrashPutArg where
  | strIds : String → TrashPutArg
  | ids : List String → TrashPutArg
  | docs : List Doc → TrashPutArg
deriving DecidableEq

/-- The documents Trash.put will move (src/Trash.mjs 97-100): a string is
split on commas, raw ids are fetched from the origin collection, loaded
documents pass through; an empty set is a hard error. -/
def trashPutBody (st : Store) (col : String) : TrashPutArg →
    Except Err (List Doc)
  | .strIds s => .ok (fetchByIds (getColl st col) (splitComma s))
  | .ids l =>
      if l.isEmpty then .error (.err "Empty data set")
      else .ok (fetchByIds (getColl st col) l)
  | .docs l =>
      if l.isEmpty then .error (.err "Empty data set")
      else .ok l

/-- The operation sequence of Trash.put (src/Trash.mjs 101-111): one
bulkWrite of all the trash upserts, then — as a second, separate
operation — one deleteMany of the originals, each guarded against being
issued empty. -/
def trashPutOps (account : Account) (col : String) (arg : TrashPutArg)
    (now : Nat) (st : Store) : Except Err (List TrashOp) :=
  (trashPutBody st col arg).map (fun body =>
    let writes := body.map (trashWriteFor account col now)
    let deleteIds := body.map (fun o => (dget o "_id").getD .null)
    (if writes.isEmpty then [] else [.bulkWriteTrash writes]) ++
      (if deleteIds.isEmpty then [] else [.deleteOrigin col deleteIds]))

/-- Execute one Trash.put store operation. -/
def applyTrashOp (st : Store) : TrashOp → Store
  | .bulkWriteTrash ws => { st with trash := ws.foldl applyTrashWrite st.trash }
  | .deleteOrigin col ids =>
      { st with colls := (setColl st.colls col
          ((getColl st col).filter (fun d =>
            ¬ids.contains ((dget d "_id").getD .null)))) }

/-- Trash.put: run its operation sequence against the store. -/
def trashPut (account : Account) (col : String) (arg : TrashPutArg)
    (now : Nat) (st : Store) : Except Err Store :=
  (trashPutOps account col arg now st).map (fun ops => ops.foldl applyTrashOp st)

/-- The ids argument of Trash.restore: a JS value that is undefined, one
trash id, or an array of trash ids. -/
inductive RestoreArg where
  | undef : RestoreArg
  | one : String → RestoreArg
  | many : List String → RestoreArg
deriving DecidableEq

/-- Normalize restore's argument (src/Trash.mjs 121-123): falsy and empty
arguments are hard errors, a single id becomes a one-element array. -/
def restoreIds : RestoreArg → Except Err (List String)
  | .undef => .error (.err "Empty data set")
  | .one s => if s = "" then .error (.err "Empty data set") else .ok [s]
  | .many l => if l.isEmpty then .error (.err "Empty data set") else .ok l

/-- Group loaded trash records' snapshots by origin collection, in first
occurrence order (the JS object keyed by item.col). -/
def addToGroup (acc : List (String × List Doc)) (r : TrashRecord) :
    List (String × List Doc) :=
  if acc.any (fun p => p.1 = r.col) then
    acc.map (fun p => if p.1 = r.col then (p.1, p.2 ++ [r.o]) else p)
  else acc ++ [(r.col, [r.o])]

/-- The per-collection insert groups of Trash.restore. -/
def groupByCol (rs : List TrashRecord) : List (String × List Doc) :=
  rs.foldl addToGroup []

/-- The store operations Trash.restore issues. -/
inductive RestoreOp where
  | bulkInsert : String → List Doc → RestoreOp
  | deleteTrash : List String → RestoreOp
deriving DecidableEq

/-- The operation sequence of Trash.restore (src/Trash.mjs 120-134): load
the named trash records, group their snapshots by origin collection, issue
one bulk insert per collection, then delete the trash records. -/
def trashRestoreOps (arg : RestoreArg) (st : Store) :
    Except Err (List RestoreOp) :=
  (restoreIds arg).map (fun ids =>
    let body := st.trash.filter (fun r => ids.contains r.tid)
    (groupByCol body).map (fun p => RestoreOp.bulkInsert p.1 p.2) ++
      [.deleteTrash ids])

/-- Execute one Trash.restore store operation. -/
def applyRestoreOp (st : Store) : RestoreOp → Store
  | .bulkInsert col docs =>
      { st with colls := setColl st.colls col (getColl st col ++ docs) }
  | .deleteTrash ids =>
      { st with trash := st.trash.filter (fun r => ¬ids.contains r.tid) }

/-- Trash.restore: run its operation sequence against the store. -/
def trashRestore (arg : RestoreArg) (st : Store) : Except Err Store :=
  (trashRestoreOps arg st).map (fun ops => ops.foldl applyRestoreOp st)

/-- The Mongo document a stored trash record amounts to, as insertOne
receives it when Trash.pluck inserts `item`. -/
def trashRecordDoc (r : TrashRecord) : Doc :=
  [("_id", .str r.tid), ("col", .str r.col), ("oid", r.oid), ("o", .obj r.o),
   ("_created", .time r.created), ("_createdBy", .str r.createdBy),
   ("_modified", .time r.modified)]

/-- Trash.pluck (src/Trash.mjs 142-146): find the trash record by trash id,
fail with Not found when absent, and insert `item` — the record itself, not
its snapshot — into the named collection, leaving the trash entry in place. -/
def pluck (st : Store) (col : String) (id : String) : Except Err Store :=
  match st.trash.find? (fun r => r.tid = id) with
  | none => .error (.err "Not found")
  | some item =>
      .ok { st with colls := (setColl st.colls col
              (getColl st col ++ [trashRecordDoc item])) }

/-- JS identifier resolution: read a name from the lexical environment, or
throw a ReferenceError when it is not declared. -/
def lookupIdent (env : List (String × Value)) (name : String) :
    Except Err Value :=
  match env.find? (fun p => p.1 = name) with
  | some p => .ok p.2
  | none => .error (.referenceError name)

/-- Does Trash.get's query object match a trash record (col, oid and _id
checked when present in the query)? -/
def trashQueryMatches (query : Doc) (r : TrashRecord) : Bool :=
  (match dget query "col" with
   | some v => v = Value.str r.col
   | none => true) &&
  (match dget query "oid" with
   | some v => v = r.oid
   | none => true) &&
  (match dget query "_id" with
   | some v => v = Value.str r.tid
   | none => true)

/-- Trash.get (src/Trash.mjs 82-88). Its lexical environment holds the four
parameters account, col, id, _id and the local query; the body then reads
the identifier `oid`, which is not among them. The find on the trash
collection only comes after that read. -/
def trashGet (st : Store) (account col idArg tidArg : Value) :
    Except Err (List TrashRecord) := do
  let query : Doc := []
  let query := if col.truthy then dset query "col" col else query
  let env : List (String × Value) :=
    [("account", account), ("col", col), ("id", idArg), ("_id", tidArg),
     ("query", .obj query)]
  let oidVal ← lookupIdent env "oid"
  let query := if oidVal.truthy then dset query "oid" oidVal else query
  let query := if tidArg.truthy then dset query "_id" tidArg else query
  return st.trash.filter (trashQueryMatches query)

/-- A reference descriptor: the collection and field to probe for live
references to a deletion candidate. -/
structure RefDescriptor where
  collection : String
  field : String
deriving DecidableEq

/-- The id a document reports in a usage report. -/
def docIdStr (d : Doc) : String :=
  ((dget d "_id").getD .null).asIdString

/-- The documents of the descriptor's collection whose named field holds one
of the candidate ids (the membership probe). -/
def referencingDocs (st : Store) (candidateIds : List String)
    (dsc : RefDescriptor) : List Doc :=
  (getColl st dsc.collection).filter (fun d =>
    match dget d dsc.field with
    | some (.str s) => candidateIds.contains s
    | _ => false)

/-- Modelled from the spec: the ReferentialGuard's usedBy operation
(spec §4.4) has no implementation under src/ — per the spec it runs the
membership probe of each (collection, field) descriptor and reports, per
descriptor with at least one hit, the collection with the referencing
documents' ids. -/
def usedBy (st : Store) (candidateIds : List String)
    (ds : List RefDescriptor) : List (String × List String) :=
  ds.filterMap (fun dsc =>
    let hits := referencingDocs st candidateIds dsc
    if hits.isEmpty then none
    else some (dsc.collection, hits.map docIdStr))

/-- Modelled from the spec: DocumentStore.checkConditions (spec §4.3)
delegates to the ReferentialGuard. -/
def checkConditions (st : Store) (candidateIds : List String)
    (ds : List RefDescriptor) : List (String × List String) :=
  usedBy st candidateIds ds

/-- Modelled from the spec: a remove guarded by checkConditions (spec §4.4)
— a non-empty usage report is a hard veto surfaced as a locked error and
nothing is deleted; an empty report lets the account-scoped delete proceed. -/
def removeGuarded (account : Account) (st : Store) (col : String)
    (ids : List String) (ds : List RefDescriptor) : Except Err Store :=
  let report := checkConditions st ids ds
  if report.isEmpty then
    .ok { st with colls := (setColl st.colls col
            ((getColl st col).filter (fun d => ¬removeMatch account.id ids d))) }
  else .error (.locked report)

/- Helper lemmas about the document operations. -/

theorem dget_nil (k : String) : dget [] k = none := rfl

theorem dget_cons (p : String × Value) (d : Doc) (k : String) :
    dget (p :: d) k = if p.1 = k then some p.2 else dget d k := by
  by_cases hp : p.1 = k
  · simp [dget, List.find?_cons, hp]
  · simp [dget, List.find?_cons, hp]

theorem dget_map_protect (d : Doc) (k k2 : String) (v : Value) (hne : k2 ≠ k) :
    dget (d.map (fun p => if p.1 = k then (k, v) else p)) k2 = dget d k2 := by
  induction d with
  | nil => rfl
  | cons q rest ih =>
    by_cases hq : q.1 = k
    · simp [dget_cons, hq, Ne.symm hne, ih]
    · by_cases hq2 : q.1 = k2
      · simp [dget_cons, hq, hq2, hne]
      · simp [dget_cons, hq, hq2, ih]

theorem dget_append (d1 d2 : Doc) (k : String) :
    dget (d1 ++ d2) k =
      match dget d1 k with
      | some v => some v
      | none => dget d2 k := by
  induction d1 with
  | nil => simp [dget_nil]
  | cons q rest ih =>
    by_cases hq : q.1 = k
    · simp [dget_cons, hq]
    · simp [dget_cons, hq, ih]

theorem dget_none_iff_any_false (d : Doc) (k : String) :
    dget d k = none ↔ d.any (fun p => p.1 = k) = false := by
  induction d with
  | nil => simp [dget_nil]
  | cons q rest ih =>
    by_cases hq : q.1 = k
    · simp [dget_cons, hq]
    · simp [dget_cons, hq, ih]

theorem dget_dset_self (d : Doc) (k : String) (v : Value) :
    dget (dset d k v) k = some v := by
  unfold dset
  split
  · next h =>
    induction d with
    | nil => cases h
    | cons q rest ih =>
      by_cases hq : q.1 = k
      · simp [dget_cons, hq]
      · have hrest : rest.any (fun p => decide (p.1 = k)) = true := by
          rcases List.any_eq_true.1 h with ⟨p, hp, hpk⟩
          cases hp with
          | head => exact absurd (by simpa using hpk) hq
          | tail _ hmem => exact List.any_eq_true.2 ⟨p, hmem, hpk⟩
        simp only [List.map_cons]
        rw [dget_cons]
        simp [hq, ih hrest]
  · next h =>
    have hnone : dget d k = none := by
      rw [dget_none_iff_any_false]
      simp only [Bool.not_eq_true] at h
      exact h
    rw [dget_append, hnone]
    simp [dget_cons]

theorem dget_dset_ne (d : Doc) (k k2 : String) (v : Value) (hne : k2 ≠ k) :
    dget (dset d k v) k2 = dget d k2 := by
  unfold dset
  split
  · exact dget_map_protect d k k2 v hne
  · rw [dget_append]
    have : dget [(k, v)] k2 = none := by
      simp [dget_cons, dget_nil, Ne.symm hne]
    rw [this]
    cases dget d k2 <;> rfl

theorem dget_eq_none_iff (d : Doc) (k : String) :
    dget d k = none ↔ ∀ p ∈ d, p.1 ≠ k := by
  induction d with
  | nil => simp [dget_nil]
  | cons q rest ih =>
    by_cases hq : q.1 = k
    · constructor
      · intro h
        rw [dget_cons] at h
        simp [hq] at h
      · intro h
        exact absurd hq (h q (by simp))
    · rw [dget_cons]
      simp only [hq, if_false]
      rw [ih]
      constructor
      · intro h p hp
        cases hp with
        | head => exact hq
        | tail _ hmem => exact h p hmem
      · intro h p hp
        exact h p (by simp [hp])

theorem mem_of_dget_eq_some (d : Doc) (k : String) (v : Value)
    (h : dget d k = some v) : (k, v) ∈ d := by
  induction d with
  | nil => simp [dget_nil] at h
  | cons q rest ih =>
    rw [dget_cons] at h
    by_cases hq : q.1 = k
    · simp only [hq, if_true, Option.some.injEq] at h
      have hqv : q = (k, v) := by cases q; simp_all
      exact List.mem_cons.2 (Or.inl hqv.symm)
    · simp only [hq, if_false] at h
      exact List.mem_cons.2 (Or.inr (ih h))

theorem dget_foldl_dset_of_not_key (g : Doc → String × Value → Value)
    (k : String) :
    ∀ (s d : Doc), (∀ p ∈ s, p.1 ≠ k) →
      dget (s.foldl (fun acc p => dset acc p.1 (g acc p)) d) k = dget d k := by
  intro s
  induction s with
  | nil => intro d _; rfl
  | cons p rest ih =>
    intro d hs
    simp only [List.foldl_cons]
    rw [ih (dset d p.1 (g d p)) (fun q hq => hs q (by simp [hq]))]
    exact dget_dset_ne d p.1 k (g d p) (fun h => hs p (by simp) h.symm)

theorem dget_objAssign_of_none (t w : Doc) (k : String)
    (h : dget w k = none) : dget (objAssign t w) k = dget t k := by
  have hks := (dget_eq_none_iff w k).1 h
  exact dget_foldl_dset_of_not_key (fun _ p => p.2) k w t hks

theorem docMatches_dget (sel d : Doc) (k : String) (v : Value)
    (hm : docMatches sel d = true) (hk : dget sel k = some v) :
    dget d k = some v := by
  unfold docMatches at hm
  rw [List.all_eq_true] at hm
  have hmem := mem_of_dget_eq_some sel k v hk
  have := hm (k, v) hmem
  simpa using this

theorem dget_dremove_ne (d : Doc) (k k2 : String) (hne : k2 ≠ k) :
    dget (dremove d k) k2 = dget d k2 := by
  induction d with
  | nil => rfl
  | cons q rest ih =>
    unfold dremove
    rw [List.filter_cons]
    by_cases hq : q.1 = k
    · rw [if_neg (by simp [hq])]
      rw [dget_cons]
      have hq2 : ¬q.1 = k2 := by rw [hq]; exact Ne.symm hne
      simp only [hq2, if_false]
      exact ih
    · rw [if_pos (by simp [hq])]
      rw [dget_cons, dget_cons]
      by_cases hq2 : q.1 = k2
      · simp [hq2]
      · simp only [hq2, if_false]
        exact ih

theorem dget_applyUnsetDoc_of_not_key (k : String) :
    ∀ (s d : Doc), (∀ p ∈ s, p.1 ≠ k) →
      dget (applyUnsetDoc d s) k = dget d k := by
  intro s
  induction s with
  | nil => intro d _; rfl
  | cons p rest ih =>
    intro d hs
    unfold applyUnsetDoc
    simp only [List.foldl_cons]
    rw [show (List.foldl (fun acc p => dremove acc p.1) (dremove d p.1) rest)
          = applyUnsetDoc (dremove d p.1) rest from rfl]
    rw [ih (dremove d p.1) (fun q hq => hs q (by simp [hq]))]
    exact dget_dremove_ne d p.1 k (fun h => hs p (by simp) h.symm)

/- Claim theorems. -/

/-- C2 (corrected): the middleware resolves read for a read request, write
for a PUT, owner for a DELETE with safe-delete off — but create, not write,
for a DELETE with safe-delete on. -/
theorem accessLevel_resolution :
    ∀ safeDelete : Bool,
      accessLevel safeDelete "GET" = "read" ∧
      accessLevel safeDelete "PUT" = "write" ∧
      accessLevel false "DELETE" = "owner" ∧
      accessLevel true "DELETE" = "create" := by
  intro sd
  cases sd <;> exact ⟨rfl, rfl, rfl, rfl⟩

/-- C2 counterexample: a DELETE under safe-delete resolves the create level,
not the write level the claim states. -/
theorem accessLevel_safeDelete_not_write :
    accessLevel true "DELETE" = "create" ∧
    ¬accessLevel true "DELETE" = "write" := by
  exact ⟨rfl, by decide⟩

/-- C1 (amended): for a non-superuser caller, when the caller-supplied where
filter does not itself name _account, every document the read route returns
carries the session account — which the route checked is in the read-level
set — as its _account; and remove deletes only documents whose _account is
the session account, which the delete route checked is in the set of the
level resolved for the delete. Holds for every sort reordering and limit. -/
theorem account_scoping
    (account : Account) (availF : List String) (acl : String → List String)
    (safeDelete : Bool) (coll collD : List Doc) (item : Option String)
    (whereOpt : Option Doc) (sortFn : List Doc → List Doc)
    (limit : Option Nat) (idsParam : String) (rs coll2 : List Doc)
    (hsuper : account.isSuper = false)
    (hwhere : dget (whereOpt.getD []) "_account" = none)
    (hsort : ∀ l x, x ∈ sortFn l → x ∈ l)
    (hfind : findRoute account availF coll item whereOpt sortFn limit = .ok rs)
    (hdel : deleteRoute safeDelete acl account collD idsParam = .ok coll2) :
    (∀ d ∈ rs, dget d "_account" = some (.str account.id)) ∧
    availF.contains account.id = true ∧
    (∀ d ∈ collD, d ∉ coll2 → dget d "_account" = some (.str account.id)) ∧
    (acl (accessLevel safeDelete "DELETE")).contains account.id = true := by
  have hcF : availF.contains account.id = true := by
    by_contra hc
    rw [findRoute, if_pos ⟨by simp [hsuper], by simpa using hc⟩] at hfind
    exact absurd hfind (by simp)
  have hcD : (acl (accessLevel safeDelete "DELETE")).contains account.id
      = true := by
    by_contra hc
    rw [deleteRoute, if_pos ⟨by simp [hsuper], by simpa using hc⟩] at hdel
    exact absurd hdel (by simp)
  have hsel : dget (findSelector account item whereOpt) "_account"
      = some (.str account.id) := by
    have hbase : ∀ i : Option String,
        dget (match i with
          | some s => dset [("_account", Value.str account.id)] "_id" (.str s)
          | none => [("_account", Value.str account.id)]) "_account"
        = some (.str account.id) := by
      intro i
      cases i with
      | some s =>
        rw [dget_dset_ne _ _ _ _ (by decide)]
        simp [dget_cons]
      | none => simp [dget_cons]
    cases whereOpt with
    | some w =>
      show dget (objAssign _ w) "_account" = some (.str account.id)
      rw [dget_objAssign_of_none _ _ _ (by simpa using hwhere)]
      exact hbase item
    | none => exact hbase item
  refine ⟨?_, hcF, ?_, hcD⟩
  · rw [findRoute, if_neg (fun hcon => absurd hcF (by simpa using hcon.2))]
      at hfind
    have hrs := Except.ok.inj hfind
    intro d hd
    rw [← hrs] at hd
    have hd3 := (List.mem_filter.1 (hsort _ _ (by
      cases limit with
      | some n => exact List.mem_of_mem_take hd
      | none => exact hd))).2
    exact docMatches_dget _ _ _ _ hd3 hsel
  · rw [deleteRoute, if_neg (fun hcon => absurd hcD (by simpa using hcon.2))]
      at hdel
    rw [remove] at hdel
    have hc2 := Except.ok.inj hdel
    intro d hd hnot
    rw [← hc2] at hnot
    have hmatch : removeMatch account.id (splitComma idsParam) d = true := by
      by_contra hm
      exact hnot (List.mem_filter.2 ⟨hd, by simpa using hm⟩)
    rw [removeMatch, Bool.and_eq_true] at hmatch
    simpa using hmatch.1

/-- C1 counterexample: under a non-superuser caller whose read set is only
acct1, a where filter naming _account makes the read route return a
document owned by acct2, outside the permitted set — the claim as stated
fails for that caller-supplied where filter. -/
theorem account_scoping_where_override :
    findRoute ⟨"acct1", "u1", false⟩ ["acct1"]
        [[("_id", .str "d1"), ("_account", .str "acct1")],
         [("_id", .str "d2"), ("_account", .str "acct2")]]
        none (some [("_account", .str "acct2")]) (fun l => l) none
      = .ok [[("_id", .str "d2"), ("_account", .str "acct2")]] ∧
    ¬("acct2" ∈ ["acct1"]) := by
  exact ⟨by decide, by decide⟩

/-- C1 witness: the amended theorem applied at a concrete caller, store and
delete request. -/
theorem account_scoping_witness :
    dget [("_id", Value.str "d1"), ("_account", Value.str "acct1")] "_account"
        = some (.str "acct1") ∧
    (["acct1"].contains "acct1") = true := by
  have h := account_scoping ⟨"acct1", "u1", false⟩ ["acct1"]
    (fun _ => ["acct1"]) false
    [[("_id", .str "d1"), ("_account", .str "acct1")]]
    [[("_id", .str "d1"), ("_account", .str "acct1")]]
    none none (fun l => l) none "d1"
    [[("_id", .str "d1"), ("_account", .str "acct1")]] []
    rfl rfl (fun _ _ hx => hx) (by decide) (by decide)
  exact ⟨h.1 _ (by decide), h.2.1⟩

/-- C3 (code bug): evaluated at the failing input — a server configured
with safe-delete on — the delete route still hard-deletes the document from
its collection through deleteMany; remove itself never consults the trash
vault (its definition above has no trash interaction at all, matching
src/index.mjs 166-171). The sound parts of the claim also evaluate: a
single id behaves as its one-element set, and a missing id is the usage
error. -/
theorem remove_hard_deletes_with_safeDelete_on :
    deleteRoute true (fun _ => ["acct1"]) ⟨"acct1", "u1", false⟩
        [[("_id", .str "w1"), ("_account", .str "acct1")]] "w1" = .ok [] ∧
    remove ⟨"acct1", "u1", false⟩
        [[("_id", .str "w1"), ("_account", .str "acct1")]] (.one "w1")
      = remove ⟨"acct1", "u1", false⟩
        [[("_id", .str "w1"), ("_account", .str "acct1")]] (.many ["w1"]) ∧
    remove ⟨"acct1", "u1", false⟩ [] .undef
      = .error (.err "no id provided") := by
  exact ⟨by decide, by decide, by decide⟩

/-- C4 counterexample: a payload that reaches _created through the $set
passthrough does change _created on an existing document, so the claim
fails as stated for such payloads. -/
theorem set_passthrough_mutates_created :
    dget (applyModifier
        (constructModifier "u" 5 [("$set", .obj [("_created", .time 999)])])
        false [("_id", .str "x"), ("_created", .time 1)]) "_created"
      = some (.time 999) ∧
    ¬(some (Value.time 999) = some (Value.time 1)) := by
  exact ⟨by decide, by decide⟩

/- Lemmas towards the amended protected-field theorem. -/

theorem dset_forall_key (d : Doc) (k : String) (v : Value) :
    ∀ q ∈ dset d k v, q.1 = k → q.2 = v := by
  unfold dset
  split
  · intro q hq hqk
    rcases List.mem_map.1 hq with ⟨p, hp, hpq⟩
    by_cases hpk : p.1 = k
    · rw [if_pos hpk] at hpq
      rw [← hpq]
    · rw [if_neg hpk] at hpq
      rw [← hpq] at hqk
      exact absurd hqk hpk
  · next h =>
    intro q hq hqk
    rcases List.mem_append.1 hq with hq1 | hq2
    · exfalso
      rw [List.any_eq_true] at h
      exact h ⟨q, hq1, by simpa using hqk⟩
    · have : q = (k, v) := by simpa using hq2
      rw [this]

theorem dset_exists_key (d : Doc) (k : String) (v : Value) :
    ∃ q ∈ dset d k v, q.1 = k := by
  unfold dset
  split
  · next h =>
    rcases List.any_eq_true.1 h with ⟨p, hp, hpk⟩
    refine ⟨(k, v), List.mem_map.2 ⟨p, hp, ?_⟩, rfl⟩
    rw [if_pos (by simpa using hpk)]
  · exact ⟨(k, v), List.mem_append.2 (Or.inr (by simp)), rfl⟩

theorem dget_applySetDoc_const (k : String) (v : Value) :
    ∀ (s d : Doc), (∃ q ∈ s, q.1 = k) → (∀ q ∈ s, q.1 = k → q.2 = v) →
      dget (applySetDoc d s) k = some v := by
  intro s
  induction s with
  | nil => intro d hex _; rcases hex with ⟨q, hq, _⟩; cases hq
  | cons p rest ih =>
    intro d hex hval
    show dget (applySetDoc (dset d p.1 p.2) rest) k = some v
    by_cases hrest : ∃ q ∈ rest, q.1 = k
    · exact ih _ hrest (fun q hq hqk => hval q (by simp [hq]) hqk)
    · have hpk : p.1 = k := by
        rcases hex with ⟨q, hq, hqk⟩
        cases hq with
        | head => exact hqk
        | tail _ hmem => exact absurd ⟨q, hmem, hqk⟩ hrest
      have hrest2 : ∀ q ∈ rest, q.1 ≠ k := by
        intro q hq hqk
        exact hrest ⟨q, hq, hqk⟩
      have := dget_foldl_dset_of_not_key (fun _ p => p.2) k rest
        (dset d p.1 p.2) hrest2
      rw [show applySetDoc (dset d p.1 p.2) rest
            = rest.foldl (fun acc p => dset acc p.1 p.2) (dset d p.1 p.2)
          from rfl]
      rw [this]
      rw [hpk, hval p (by simp) hpk]
      exact dget_dset_self d k v

theorem dget_optApply_fieldOps (g : Doc → String × Value → Value) (d : Doc)
    (o : Option Doc) (k : String)
    (havoid : ∀ u, o = some u → ∀ q ∈ u, q.1 ≠ k) :
    dget (optApply (applyFieldOps g) d o) k = dget d k := by
  cases o with
  | none => rfl
  | some u => exact dget_foldl_dset_of_not_key g k u d (havoid u rfl)

theorem dget_optApply_unset (d : Doc) (o : Option Doc) (k : String)
    (havoid : ∀ u, o = some u → ∀ q ∈ u, q.1 ≠ k) :
    dget (optApply applyUnsetDoc d o) k = dget d k := by
  cases o with
  | none => rfl
  | some u => exact dget_applyUnsetDoc_of_not_key k u d (havoid u rfl)

theorem dget_optApply_push (d : Doc) (o : Option Doc) (k : String)
    (havoid : ∀ u, o = some u → ∀ q ∈ u, q.1 ≠ k) :
    dget (optApply applyPushDoc d o) k = dget d k :=
  dget_optApply_fieldOps _ d o k havoid

theorem dget_optApply_addToSet (d : Doc) (o : Option Doc) (k : String)
    (havoid : ∀ u, o = some u → ∀ q ∈ u, q.1 ≠ k) :
    dget (optApply applyAddToSetDoc d o) k = dget d k :=
  dget_optApply_fieldOps _ d o k havoid

theorem dget_optApply_pull (d : Doc) (o : Option Doc) (k : String)
    (havoid : ∀ u, o = some u → ∀ q ∈ u, q.1 ≠ k) :
    dget (optApply applyPullDoc d o) k = dget d k :=
  dget_optApply_fieldOps _ d o k havoid

/-- Is a field name one of the five recognized mutation operators? -/
def opKey (s : String) : Prop :=
  s = "$push" ∨ s = "$pull" ∨ s = "$addToSet" ∨ s = "$unset" ∨ s = "$set"

instance (s : String) : Decidable (opKey s) := by
  unfold opKey
  infer_instance

theorem modLoop_set_none (k : String)
    (hk : k = "_id" ∨ k = "_created" ∨ k = "_createdBy") :
    ∀ (payload : Doc) (m0 : Modifier),
      (∀ p ∈ payload, opKey p.1 → ∀ q ∈ p.2.objFields, q.1 ≠ k) →
      dget m0.set k = none →
      dget ((payload.foldl modifierStep m0).set) k = none := by
  intro payload
  induction payload with
  | nil => intro m0 _ h0; exact h0
  | cons p rest ih =>
    intro m0 hops h0
    rw [List.foldl_cons]
    apply ih _ (fun q hq hop => hops q (by simp [hq]) hop)
    unfold modifierStep
    split_ifs with h1 h2 h3 h4 h5 h6
    · exact h0
    · exact h0
    · exact h0
    · exact h0
    · rw [dget_eq_none_iff]
      exact hops p (by simp) (Or.inr (Or.inr (Or.inr (Or.inr h5))))
    · exact h0
    · rw [dget_dset_ne]
      · exact h0
      · intro he
        rcases hk with hk | hk | hk <;> rw [hk] at he <;>
          exact h6 (by rw [← he]; tauto)

theorem modLoop_ops_avoid (k : String) :
    ∀ (payload : Doc) (m0 : Modifier),
      (∀ p ∈ payload, opKey p.1 → ∀ q ∈ p.2.objFields, q.1 ≠ k) →
      (∀ u, m0.push = some u → ∀ q ∈ u, q.1 ≠ k) →
      (∀ u, m0.pull = some u → ∀ q ∈ u, q.1 ≠ k) →
      (∀ u, m0.addToSet = some u → ∀ q ∈ u, q.1 ≠ k) →
      (∀ u, m0.unset = some u → ∀ q ∈ u, q.1 ≠ k) →
      (∀ u, (payload.foldl modifierStep m0).push = some u →
        ∀ q ∈ u, q.1 ≠ k) ∧
      (∀ u, (payload.foldl modifierStep m0).pull = some u →
        ∀ q ∈ u, q.1 ≠ k) ∧
      (∀ u, (payload.foldl modifierStep m0).addToSet = some u →
        ∀ q ∈ u, q.1 ≠ k) ∧
      (∀ u, (payload.foldl modifierStep m0).unset = some u →
        ∀ q ∈ u, q.1 ≠ k) := by
  intro payload
  induction payload with
  | nil => intro m0 _ h1 h2 h3 h4; exact ⟨h1, h2, h3, h4⟩
  | cons p rest ih =>
    intro m0 hops h1 h2 h3 h4
    rw [List.foldl_cons]
    apply ih _ (fun q hq hop => hops q (by simp [hq]) hop)
    all_goals
      unfold modifierStep
      split_ifs with ha hb hc hd he hf
    · intro u hu
      have := Option.some.inj hu
      rw [← this]
      exact hops p (by simp) (Or.inl ha)
    · exact h1
    · exact h1
    · exact h1
    · exact h1
    · exact h1
    · exact h1
    · exact h2
    · intro u hu
      have := Option.some.inj hu
      rw [← this]
      exact hops p (by simp) (Or.inr (Or.inl hb))
    · exact h2
    · exact h2
    · exact h2
    · exact h2
    · exact h2
    · exact h3
    · exact h3
    · intro u hu
      have := Option.some.inj hu
      rw [← this]
      exact hops p (by simp) (Or.inr (Or.inr (Or.inl hc)))
    · exact h3
    · exact h3
    · exact h3
    · exact h3
    · exact h4
    · exact h4
    · exact h4
    · intro u hu
      have := Option.some.inj hu
      rw [← this]
      exact hops p (by simp) (Or.inr (Or.inr (Or.inr (Or.inl hd))))
    · exact h4
    · exact h4
    · exact h4

/-- The initial modifier of constructModifier's loop. -/
def modInit : Modifier :=
  { set := [], push := none, pull := none, addToSet := none,
    unset := none, setOnInsert := [] }

theorem constructModifier_set_eq (userId : String) (now : Nat)
    (payload : Doc) :
    (constructModifier userId now payload).set
      = dset ((payload.foldl modifierStep modInit).set) "_modified"
          (.time now) := rfl

theorem constructModifier_push_eq (userId : String) (now : Nat)
    (payload : Doc) :
    (constructModifier userId now payload).push
      = (payload.foldl modifierStep modInit).push := rfl

theorem constructModifier_pull_eq (userId : String) (now : Nat)
    (payload : Doc) :
    (constructModifier userId now payload).pull
      = (payload.foldl modifierStep modInit).pull := rfl

theorem constructModifier_addToSet_eq (userId : String) (now : Nat)
    (payload : Doc) :
    (constructModifier userId now payload).addToSet
      = (payload.foldl modifierStep modInit).addToSet := rfl

theorem constructModifier_unset_eq (userId : String) (now : Nat)
    (payload : Doc) :
    (constructModifier userId now payload).unset
      = (payload.foldl modifierStep modInit).unset := rfl

/-- Update-path application of a modifier leaves a field alone when the
field is absent from the $set bucket and from every operator sub-document. -/
theorem applyModifier_keeps (m : Modifier) (d : Doc) (k : String)
    (hset : dget m.set k = none)
    (hpush : ∀ u, m.push = some u → ∀ q ∈ u, q.1 ≠ k)
    (hpull : ∀ u, m.pull = some u → ∀ q ∈ u, q.1 ≠ k)
    (haddToSet : ∀ u, m.addToSet = some u → ∀ q ∈ u, q.1 ≠ k)
    (hunset : ∀ u, m.unset = some u → ∀ q ∈ u, q.1 ≠ k) :
    dget (applyModifier m false d) k = dget d k := by
  show dget (optApply applyPullDoc
      (optApply applyAddToSetDoc
        (optApply applyPushDoc
          (optApply applyUnsetDoc (applySetDoc d m.set) m.unset)
          m.push)
        m.addToSet)
      m.pull) k = dget d k
  rw [dget_optApply_pull _ _ _ hpull]
  rw [dget_optApply_addToSet _ _ _ haddToSet]
  rw [dget_optApply_push _ _ _ hpush]
  rw [dget_optApply_unset _ _ _ hunset]
  exact dget_foldl_dset_of_not_key (fun _ p => p.2) k m.set d
    ((dget_eq_none_iff _ _).1 hset)

/-- Update-path application of a modifier writes the constant value its
$set bucket holds for a field, when no operator sub-document touches it. -/
theorem applyModifier_sets_const (m : Modifier) (d : Doc) (k : String)
    (v : Value)
    (hex : ∃ q ∈ m.set, q.1 = k)
    (hval : ∀ q ∈ m.set, q.1 = k → q.2 = v)
    (hpush : ∀ u, m.push = some u → ∀ q ∈ u, q.1 ≠ k)
    (hpull : ∀ u, m.pull = some u → ∀ q ∈ u, q.1 ≠ k)
    (haddToSet : ∀ u, m.addToSet = some u → ∀ q ∈ u, q.1 ≠ k)
    (hunset : ∀ u, m.unset = some u → ∀ q ∈ u, q.1 ≠ k) :
    dget (applyModifier m false d) k = some v := by
  show dget (optApply applyPullDoc
      (optApply applyAddToSetDoc
        (optApply applyPushDoc
          (optApply applyUnsetDoc (applySetDoc d m.set) m.unset)
          m.push)
        m.addToSet)
      m.pull) k = some v
  rw [dget_optApply_pull _ _ _ hpull]
  rw [dget_optApply_addToSet _ _ _ haddToSet]
  rw [dget_optApply_push _ _ _ hpush]
  rw [dget_optApply_unset _ _ _ hunset]
  exact dget_applySetDoc_const k v m.set d hex hval

/-- One update-path application of the modifier put builds: the protected
fields are untouched and _modified becomes the write's time, provided no
operator sub-document names a protected field or _modified. -/
theorem applyConstructModifier_protected (userId : String) (now : Nat)
    (payload d : Doc)
    (hops : ∀ p ∈ payload, opKey p.1 → ∀ q ∈ p.2.objFields,
      q.1 ≠ "_id" ∧ q.1 ≠ "_created" ∧ q.1 ≠ "_createdBy" ∧
        q.1 ≠ "_modified") :
    dget (applyModifier (constructModifier userId now payload) false d) "_id"
        = dget d "_id" ∧
    dget (applyModifier (constructModifier userId now payload) false d)
        "_created" = dget d "_created" ∧
    dget (applyModifier (constructModifier userId now payload) false d)
        "_createdBy" = dget d "_createdBy" ∧
    dget (applyModifier (constructModifier userId now payload) false d)
        "_modified" = some (.time now) := by
  have hkeep : ∀ k, (k = "_id" ∨ k = "_created" ∨ k = "_createdBy") →
      dget (applyModifier (constructModifier userId now payload) false d) k
        = dget d k := by
    intro k hk
    have hops2 : ∀ p ∈ payload, opKey p.1 → ∀ q ∈ p.2.objFields, q.1 ≠ k := by
      intro p hp hop q hq
      rcases hk with hk | hk | hk <;> rw [hk]
      · exact (hops p hp hop q hq).1
      · exact (hops p hp hop q hq).2.1
      · exact (hops p hp hop q hq).2.2.1
    have havoid := modLoop_ops_avoid k payload modInit hops2
      (fun u hu => by cases hu) (fun u hu => by cases hu)
      (fun u hu => by cases hu) (fun u hu => by cases hu)
    apply applyModifier_keeps
    · rw [constructModifier_set_eq]
      rw [dget_dset_ne]
      · exact modLoop_set_none k hk payload modInit hops2 rfl
      · intro he
        rcases hk with hk | hk | hk <;> rw [hk] at he <;>
          exact absurd he (by decide)
    · rw [constructModifier_push_eq]; exact havoid.1
    · rw [constructModifier_pull_eq]; exact havoid.2.1
    · rw [constructModifier_addToSet_eq]; exact havoid.2.2.1
    · rw [constructModifier_unset_eq]; exact havoid.2.2.2
  refine ⟨hkeep _ (by tauto), hkeep _ (by tauto), hkeep _ (by tauto), ?_⟩
  have hops3 : ∀ p ∈ payload, opKey p.1 →
      ∀ q ∈ p.2.objFields, q.1 ≠ "_modified" := by
    intro p hp hop q hq
    exact (hops p hp hop q hq).2.2.2
  have havoid := modLoop_ops_avoid "_modified" payload modInit hops3
    (fun u hu => by cases hu) (fun u hu => by cases hu)
    (fun u hu => by cases hu) (fun u hu => by cases hu)
  apply applyModifier_sets_const
  · rw [constructModifier_set_eq]
    exact dset_exists_key _ _ _
  · rw [constructModifier_set_eq]
    exact dset_forall_key _ _ _
  · rw [constructModifier_push_eq]; exact havoid.1
  · rw [constructModifier_pull_eq]; exact havoid.2.1
  · rw [constructModifier_addToSet_eq]; exact havoid.2.2.1
  · rw [constructModifier_unset_eq]; exact havoid.2.2.2

/-- C4 (amended): on an existing document, the update put builds never
changes _id, _created or _createdBy — including for payloads that attempt
to set them as plain fields, which are stripped — and every application
sets _modified to the time of that write; re-applying the same payload
leaves the protected fields at their original values. Amended per the
counterexample: the five verbatim-copied mutation operator sub-documents
must not themselves name a protected field or _modified, since they pass
through unfiltered. -/
theorem put_protected_fields_immutable (userId : String) (now now2 : Nat)
    (payload d : Doc)
    (hops : ∀ p ∈ payload, opKey p.1 → ∀ q ∈ p.2.objFields,
      q.1 ≠ "_id" ∧ q.1 ≠ "_created" ∧ q.1 ≠ "_createdBy" ∧
        q.1 ≠ "_modified") :
    dget (applyModifier (constructModifier userId now payload) false d) "_id"
        = dget d "_id" ∧
    dget (applyModifier (constructModifier userId now payload) false d)
        "_created" = dget d "_created" ∧
    dget (applyModifier (constructModifier userId now payload) false d)
        "_createdBy" = dget d "_createdBy" ∧
    dget (applyModifier (constructModifier userId now payload) false d)
        "_modified" = some (.time now) ∧
    dget (applyModifier (constructModifier userId now2 payload) false
        (applyModifier (constructModifier userId now payload) false d)) "_id"
      = dget d "_id" ∧
    dget (applyModifier (constructModifier userId now2 payload) false
        (applyModifier (constructModifier userId now payload) false d))
        "_created" = dget d "_created" ∧
    dget (applyModifier (constructModifier userId now2 payload) false
        (applyModifier (constructModifier userId now payload) false d))
        "_createdBy" = dget d "_createdBy" := by
  have h1 := applyConstructModifier_protected userId now payload d hops
  have h2 := applyConstructModifier_protected userId now2 payload
    (applyModifier (constructModifier userId now payload) false d) hops
  refine ⟨h1.1, h1.2.1, h1.2.2.1, h1.2.2.2, ?_, ?_, ?_⟩
  · rw [h2.1, h1.1]
  · rw [h2.2.1, h1.2.1]
  · rw [h2.2.2.1, h1.2.2.1]

/-- C4 witness: the amended theorem applied to a concrete existing document
and a payload that attempts to set _id, _created and _createdBy as plain
fields and carries a harmless $push. -/
theorem put_protected_fields_immutable_witness :
    dget (applyModifier (constructModifier "u2" 9
        [("_id", .str "forged"), ("_created", .time 999),
         ("_createdBy", .str "mallory"), ("name", .str "bolt"),
         ("$push", .obj [("tags", .str "t")])]) false
        [("_id", .str "x"), ("_created", .time 1),
         ("_createdBy", .str "alice"), ("_account", .str "a1")]) "_created"
      = some (.time 1) ∧
    dget (applyModifier (constructModifier "u2" 9
        [("_id", .str "forged"), ("_created", .time 999),
         ("_createdBy", .str "mallory"), ("name", .str "bolt"),
         ("$push", .obj [("tags", .str "t")])]) false
        [("_id", .str "x"), ("_created", .time 1),
         ("_createdBy", .str "alice"), ("_account", .str "a1")]) "_modified"
      = some (.time 9) := by
  have h := put_protected_fields_immutable "u2" 9 11
    [("_id", .str "forged"), ("_created", .time 999),
     ("_createdBy", .str "mallory"), ("name", .str "bolt"),
     ("$push", .obj [("tags", .str "t")])]
    [("_id", .str "x"), ("_created", .time 1),
     ("_createdBy", .str "alice"), ("_account", .str "a1")]
    (by decide)
  refine ⟨?_, h.2.2.2.1⟩
  rw [h.2.1]
  decide

theorem batchWrites_length (accounts : List String) (account : Account)
    (now : Nat) (genId : Nat → String) :
    ∀ (body : List Doc) (i : Nat),
      (batchWrites accounts account now genId body i).length
        + foreignCount accounts body = body.length := by
  intro body
  induction body with
  | nil => intro i; rfl
  | cons o rest ih =>
    intro i
    by_cases h1 : dtruthy o "_account"
    · by_cases h2 : accountAllowed accounts o
      · have hnf : isForeign accounts o = false := by
          unfold isForeign
          simp [h1, h2]
        have hcount : foreignCount accounts (o :: rest)
            = foreignCount accounts rest := by
          unfold foreignCount
          rw [List.countP_cons]
          simp [hnf]
        rw [show batchWrites accounts account now genId (o :: rest) i
              = ⟨targetIdOf o (genId i),
                 constructModifier account.userId now o⟩ ::
                  batchWrites accounts account now genId rest (i + 1) from by
            rw [batchWrites]
            rw [if_neg (by simpa using h1), if_pos h2]]
        rw [hcount]
        simp only [List.length_cons]
        have := ih (i + 1)
        omega
      · have hf : isForeign accounts o = true := by
          unfold isForeign
          simp [h1, h2]
        have hcount : foreignCount accounts (o :: rest)
            = foreignCount accounts rest + 1 := by
          unfold foreignCount
          rw [List.countP_cons]
          simp [hf]
        rw [show batchWrites accounts account now genId (o :: rest) i
              = batchWrites accounts account now genId rest (i + 1) from by
            rw [batchWrites]
            rw [if_neg (by simpa using h1), if_neg h2]]
        rw [hcount]
        simp only [List.length_cons]
        have := ih (i + 1)
        omega
    · have hnf : isForeign accounts o = false := by
        unfold isForeign
        simp [h1]
      have hcount : foreignCount accounts (o :: rest)
          = foreignCount accounts rest := by
        unfold foreignCount
        rw [List.countP_cons]
        simp [hnf]
      rw [show batchWrites accounts account now genId (o :: rest) i
            = ⟨targetIdOf (dset o "_account" (.str account.id)) (genId i),
               constructModifier account.userId now
                 (dset o "_account" (.str account.id))⟩ ::
                batchWrites accounts account now genId rest (i + 1) from by
          rw [batchWrites]
          rw [if_pos (by simpa using h1)]]
      rw [hcount]
      simp only [List.length_cons]
      have := ih (i + 1)
      omega

theorem bulkUpsert_counts :
    ∀ (ws : List WriteOp) (coll : List Doc),
      (bulkUpsert coll ws).2.upsertedCount
        + (bulkUpsert coll ws).2.modifiedCount = ws.length := by
  intro ws
  induction ws with
  | nil => intro coll; rfl
  | cons w rest ih =>
    intro coll
    rw [bulkUpsert]
    split
    · simp only [List.length_cons]
      have := ih (updateFirst (fun d => dget d "_id" = some w.filterId)
        (applyModifier w.update false) coll)
      omega
    · simp only [List.length_cons]
      have := ih (coll ++ [applyModifier w.update true [("_id", w.filterId)]])
      omega

/-- C5 (confirmed): a non-empty batch of N items of which M carry a foreign
_account raises no error — put answers with just the two counts, which
total exactly N − M, and the bulkWrite it issues holds exactly N − M
upserts; the empty batch is the hard usage error. -/
theorem put_batch_partial_success (aclWrite : List String)
    (account : Account) (coll : List Doc) (body : List Doc)
    (genId : Nat → String) (now : Nat) (hne : body ≠ []) :
    (∃ counts : Counts,
      putBatchResult aclWrite account coll body genId now = .ok counts ∧
      counts.upsertedCount + counts.modifiedCount
        = body.length
            - foreignCount (writableAccounts aclWrite account) body) ∧
    (batchWrites (writableAccounts aclWrite account) account now genId
        body 0).length
      = body.length - foreignCount (writableAccounts aclWrite account) body ∧
    putBatchResult aclWrite account coll [] genId now
      = .error (.err "Empty data set") := by
  have hlen := batchWrites_length (writableAccounts aclWrite account)
    account now genId body 0
  refine ⟨⟨(bulkUpsert coll (batchWrites
      (writableAccounts aclWrite account) account now genId body 0)).2,
      ?_, ?_⟩, by omega, rfl⟩
  · unfold putBatchResult putBatch
    rw [if_neg (by simpa using hne)]
    rfl
  · rw [bulkUpsert_counts]
    omega

/-- C5 witness: the theorem applied to a concrete two-item batch with one
foreign item — exactly one write is issued. -/
theorem put_batch_partial_success_witness :
    (batchWrites (writableAccounts ["acct1"] ⟨"acct1", "u1", false⟩)
        ⟨"acct1", "u1", false⟩ 5 (fun i => "g" ++ toString i)
        [[("name", .str "a")],
         [("_account", .str "zz"), ("name", .str "b")]] 0).length
      = 2 - 1 :=
  (put_batch_partial_success ["acct1"] ⟨"acct1", "u1", false⟩ []
    [[("name", .str "a")], [("_account", .str "zz"), ("name", .str "b")]]
    (fun i => "g" ++ toString i) 5 (by decide)).2.1

/- Lemmas about updateFirst and the trash upsert. -/

theorem mem_updateFirst {α : Type} (p : α → Bool) (f : α → α) :
    ∀ (l : List α) (a : α), a ∈ updateFirst p f l →
      a ∈ l ∨ ∃ b ∈ l, a = f b := by
  intro l
  induction l with
  | nil => intro a ha; cases ha
  | cons b rest ih =>
    intro a ha
    rw [updateFirst] at ha
    by_cases hb : p b
    · rw [if_pos hb] at ha
      cases ha with
      | head => exact Or.inr ⟨b, List.mem_cons_self b rest, rfl⟩
      | tail _ hmem => exact Or.inl (List.mem_cons_of_mem b hmem)
    · rw [if_neg hb] at ha
      cases ha with
      | head => exact Or.inl (List.mem_cons_self b rest)
      | tail _ hmem =>
        rcases ih a hmem with h | ⟨c, hc, hcf⟩
        · exact Or.inl (List.mem_cons_of_mem b h)
        · exact Or.inr ⟨c, List.mem_cons_of_mem b hc, hcf⟩

theorem updateFirst_append_none {α : Type} (p : α → Bool) (f : α → α) :
    ∀ (l1 l2 : List α), (∀ a ∈ l1, p a = false) →
      updateFirst p f (l1 ++ l2) = l1 ++ updateFirst p f l2 := by
  intro l1
  induction l1 with
  | nil => intro l2 _; rfl
  | cons a rest ih =>
    intro l2 h
    rw [List.cons_append, updateFirst]
    rw [if_neg (by simp [h a (by simp)])]
    rw [ih l2 (fun b hb => h b (by simp [hb]))]
    rfl

theorem updateFirst_idem {α : Type} (p : α → Bool) (f : α → α)
    (hf : ∀ a, p (f a) = p a) (hff : ∀ a, f (f a) = f a) :
    ∀ l, updateFirst p f (updateFirst p f l) = updateFirst p f l := by
  intro l
  induction l with
  | nil => rfl
  | cons a rest ih =>
    rw [updateFirst]
    by_cases ha : p a
    · rw [if_pos ha, updateFirst, if_pos (by rw [hf]; exact ha), hff]
    · rw [if_neg ha, updateFirst, if_neg ha, ih]

theorem any_updateFirst {α : Type} (p : α → Bool) (f : α → α)
    (hf : ∀ a, p (f a) = p a) :
    ∀ l : List α, (updateFirst p f l).any p = l.any p := by
  intro l
  induction l with
  | nil => rfl
  | cons a rest ih =>
    rw [updateFirst]
    by_cases ha : p a
    · rw [if_pos ha]
      simp [ha, hf]
    · rw [if_neg ha]
      simp only [List.any_cons, ih]

theorem trashWriteMatch_update (w : TrashWrite) (r : TrashRecord) :
    trashWriteMatch w { r with o := w.setO, modified := w.setModified }
      = trashWriteMatch w r := rfl

/-- The fresh record a trash write inserts. -/
def freshTrashRecord (w : TrashWrite) : TrashRecord :=
  { tid := w.soiId, col := w.filterCol, oid := w.filterOid, o := w.setO,
    created := w.soiCreated, createdBy := w.soiCreatedBy,
    modified := w.setModified }

theorem trashWriteMatch_fresh (w : TrashWrite) :
    trashWriteMatch w (freshTrashRecord w) = true := by
  unfold trashWriteMatch freshTrashRecord
  simp

/-- Re-trashing through the same write is idempotent on the trash state. -/
theorem applyTrashWrite_idem (t : List TrashRecord) (w : TrashWrite) :
    applyTrashWrite (applyTrashWrite t w) w = applyTrashWrite t w := by
  by_cases h : t.any (trashWriteMatch w)
  · have hu : applyTrashWrite t w
        = updateFirst (trashWriteMatch w)
            (fun r => { r with o := w.setO, modified := w.setModified }) t := by
      rw [applyTrashWrite, if_pos h]
    rw [hu]
    rw [applyTrashWrite,
      if_pos (by rw [any_updateFirst _ _ (trashWriteMatch_update w)]; exact h)]
    exact updateFirst_idem _ _ (trashWriteMatch_update w) (fun r => rfl) t
  · have hall : ∀ r ∈ t, trashWriteMatch w r = false := by
      intro r hr
      have h2 : ¬trashWriteMatch w r = true := by
        intro hx
        exact h (List.any_eq_true.2 ⟨r, hr, hx⟩)
      simpa using h2
    have hu : applyTrashWrite t w = t ++ [freshTrashRecord w] := by
      rw [applyTrashWrite, if_neg h]
      rfl
    rw [hu]
    rw [applyTrashWrite,
      if_pos (by
        rw [List.any_append]
        simp only [List.any_cons, List.any_nil, trashWriteMatch_fresh w,
          Bool.or_true, Bool.or_false, Bool.true_or])]
    rw [updateFirst_append_none _ _ _ _ hall]
    rw [updateFirst, if_pos (trashWriteMatch_fresh w)]
    rfl

/-- A trash upsert only ever leaves records as they were, updates a record's
snapshot and modification stamp, or inserts the fresh keyed record — the
identity and audit fields of an existing record are never rewritten. -/
theorem applyTrashWrite_mem (t : List TrashRecord) (w : TrashWrite)
    (r2 : TrashRecord) (h : r2 ∈ applyTrashWrite t w) :
    r2 ∈ t ∨
    (∃ r ∈ t, r2 = { r with o := w.setO, modified := w.setModified }) ∨
    r2 = freshTrashRecord w := by
  by_cases ha : t.any (trashWriteMatch w)
  · rw [applyTrashWrite, if_pos ha] at h
    rcases mem_updateFirst _ _ t r2 h with h1 | ⟨b, hb, hbf⟩
    · exact Or.inl h1
    · exact Or.inr (Or.inl ⟨b, hb, hbf⟩)
  · rw [applyTrashWrite, if_neg ha] at h
    rcases List.mem_append.1 h with h1 | h2
    · exact Or.inl h1
    · exact Or.inr (Or.inr (by simpa [freshTrashRecord] using h2))

/-- C7 (confirmed): moving documents to trash issues exactly one bulkWrite
of trash upserts — one write per document, keyed by origin collection and
id with the composite trash id, the identity and audit fields under
insert-only semantics and the snapshot and _modified under plain set
semantics — followed by one separate deleteMany of the originals; the trash
upsert is idempotent and never rewrites an existing record's identity. -/
theorem trash_put_two_phase (account : Account) (col : String)
    (docs : List Doc) (now : Nat) (st : Store) (hne : docs ≠ []) :
    trashPutOps account col (.docs docs) now st
      = .ok [.bulkWriteTrash (docs.map (trashWriteFor account col now)),
             .deleteOrigin col
               (docs.map (fun o => (dget o "_id").getD .null))] ∧
    (docs.map (trashWriteFor account col now)).length = docs.length ∧
    (∀ o ∈ docs,
      trashWriteFor account col now o
        = { filterCol := col, filterOid := (dget o "_id").getD .null,
            soiId := col ++ "::" ++ ((dget o "_id").getD .null).asIdString,
            soiCreated := now, soiCreatedBy := account.userId,
            setO := o, setModified := now }) ∧
    (∀ w t, applyTrashWrite (applyTrashWrite t w) w = applyTrashWrite t w) ∧
    (∀ w t r2, r2 ∈ applyTrashWrite t w →
      r2 ∈ t ∨
      (∃ r ∈ t, r2 = { r with o := w.setO, modified := w.setModified }) ∨
      r2 = freshTrashRecord w) := by
  cases docs with
  | nil => exact absurd rfl hne
  | cons d0 rest =>
    refine ⟨rfl, by simp, fun o _ => rfl,
      fun w t => applyTrashWrite_idem t w,
      fun w t r2 h => applyTrashWrite_mem t w r2 h⟩

/-- C7 witness: the theorem applied to one concrete document. -/
theorem trash_put_two_phase_witness :
    trashPutOps ⟨"a1", "u1", false⟩ "widgets"
        (.docs [[("_id", .str "w1"), ("name", .str "bolt")]]) 7
        ⟨[("widgets", [[("_id", .str "w1"), ("name", .str "bolt")]])], []⟩
      = .ok [.bulkWriteTrash
               [⟨"widgets", .str "w1", "widgets::w1", 7, "u1",
                 [("_id", .str "w1"), ("name", .str "bolt")], 7⟩],
             .deleteOrigin "widgets" [.str "w1"]] :=
  (trash_put_two_phase ⟨"a1", "u1", false⟩ "widgets"
    [[("_id", .str "w1"), ("name", .str "bolt")]] 7
    ⟨[("widgets", [[("_id", .str "w1"), ("name", .str "bolt")]])], []⟩
    (by decide)).1

/- Lemmas about the collection table and restore's grouping. -/

/-- Association lookup over the collection table. -/
def alookup {β : Type} (l : List (String × β)) (n : String) : Option β :=
  (l.find? (fun p => p.1 = n)).map (fun p => p.2)

theorem alookup_cons {β : Type} (p : String × β) (l : List (String × β))
    (n : String) :
    alookup (p :: l) n = if p.1 = n then some p.2 else alookup l n := by
  by_cases hp : p.1 = n
  · simp [alookup, List.find?_cons, hp]
  · simp [alookup, List.find?_cons, hp]

theorem alookup_append {β : Type} (l1 l2 : List (String × β)) (n : String) :
    alookup (l1 ++ l2) n =
      match alookup l1 n with
      | some v => some v
      | none => alookup l2 n := by
  induction l1 with
  | nil => simp [alookup]
  | cons q rest ih =>
    by_cases hq : q.1 = n
    · simp [alookup_cons, hq]
    · simp [alookup_cons, hq, ih]

theorem alookup_none_iff_any_false {β : Type} (l : List (String × β))
    (n : String) :
    alookup l n = none ↔ l.any (fun p => p.1 = n) = false := by
  induction l with
  | nil => simp [alookup]
  | cons q rest ih =>
    by_cases hq : q.1 = n
    · simp [alookup_cons, hq]
    · simp [alookup_cons, hq, ih]

theorem alookup_setColl_self (cs : List (String × List Doc)) (n : String)
    (docs : List Doc) : alookup (setColl cs n docs) n = some docs := by
  unfold setColl
  split
  · next h =>
    induction cs with
    | nil => cases h
    | cons q rest ih =>
      by_cases hq : q.1 = n
      · simp [alookup_cons, hq]
      · have hrest : rest.any (fun p => decide (p.1 = n)) = true := by
          rcases List.any_eq_true.1 h with ⟨p, hp, hpk⟩
          cases hp with
          | head => exact absurd (by simpa using hpk) hq
          | tail _ hmem => exact List.any_eq_true.2 ⟨p, hmem, hpk⟩
        simp only [List.map_cons]
        rw [alookup_cons]
        simp [hq, ih hrest]
  · next h =>
    have hnone : alookup cs n = none := by
      rw [alookup_none_iff_any_false]
      simp only [Bool.not_eq_true] at h
      exact h
    rw [alookup_append, hnone]
    simp [alookup_cons]

theorem getColl_setColl_self (cs : List (String × List Doc))
    (t : List TrashRecord) (n : String) (docs : List Doc) :
    getColl ⟨setColl cs n docs, t⟩ n = docs := by
  show (alookup (setColl cs n docs) n).getD [] = docs
  rw [alookup_setColl_self]
  rfl

theorem addToGroup_map_fst (acc : List (String × List Doc))
    (r : TrashRecord) :
    (addToGroup acc r).map Prod.fst
      = if acc.any (fun p => p.1 = r.col) then acc.map Prod.fst
        else acc.map Prod.fst ++ [r.col] := by
  unfold addToGroup
  split
  · rw [List.map_map]
    apply List.map_congr_left
    intro p _
    by_cases hp : p.1 = r.col <;> simp [hp]
  · simp

theorem foldl_addToGroup_keys_nodup :
    ∀ (rs : List TrashRecord) (acc : List (String × List Doc)),
      (acc.map Prod.fst).Nodup →
      ((rs.foldl addToGroup acc).map Prod.fst).Nodup := by
  intro rs
  induction rs with
  | nil => intro acc h; exact h
  | cons r rest ih =>
    intro acc hacc
    rw [List.foldl_cons]
    apply ih
    rw [addToGroup_map_fst]
    split
    · exact hacc
    · next h =>
      have hnotin : r.col ∉ acc.map Prod.fst := by
        intro hx
        rcases List.mem_map.1 hx with ⟨p, hp, hpf⟩
        have hall : (acc.any fun p => decide (p.1 = r.col)) = true := by
          rw [List.any_eq_true]
          exact ⟨p, hp, decide_eq_true hpf⟩
        exact h hall
      simp [List.nodup_append, hacc, hnotin]

theorem groupByCol_keys_nodup (rs : List TrashRecord) :
    ((groupByCol rs).map Prod.fst).Nodup :=
  foldl_addToGroup_keys_nodup rs [] (by simp)

/-- C6 (confirmed): trashing a document and restoring its trash id
reproduces the document's full field set, with the same _id, in its origin
collection and removes the trash record; and restore always groups loaded
snapshots by origin collection, issuing one bulk insert per distinct
collection before the single trash deletion. Stated for a store whose
trash does not already hold a record for this document or its composite
key. -/
theorem trash_roundtrip (account : Account) (K i : String) (D : Doc)
    (now : Nat) (st : Store)
    (hid : dget D "_id" = some (.str i))
    (hfetch : fetchByIds (getColl st K) [i] = [D])
    (htrash1 : ∀ r ∈ st.trash, ¬(r.col = K ∧ r.oid = Value.str i))
    (htrash2 : ∀ r ∈ st.trash, r.tid ≠ K ++ "::" ++ i) :
    ∃ st1 st2,
      trashPut account K (.ids [i]) now st = .ok st1 ∧
      trashRestore (.one (K ++ "::" ++ i)) st1 = .ok st2 ∧
      D ∈ getColl st2 K ∧
      (∀ r ∈ st2.trash, r.tid ≠ K ++ "::" ++ i) ∧
      trashRestoreOps (.one (K ++ "::" ++ i)) st1
        = .ok [.bulkInsert K [D], .deleteTrash [K ++ "::" ++ i]] ∧
      (∀ arg stx ops, trashRestoreOps arg stx = .ok ops →
        ∃ ids, ops
            = (groupByCol (stx.trash.filter
                (fun r => ids.contains r.tid))).map
                (fun p => RestoreOp.bulkInsert p.1 p.2)
              ++ [.deleteTrash ids] ∧
          ((groupByCol (stx.trash.filter
              (fun r => ids.contains r.tid))).map Prod.fst).Nodup) := by
  have hoid : (dget D "_id").getD Value.null = .str i := by rw [hid]; rfl
  have hw : trashWriteFor account K now D
      = { filterCol := K, filterOid := .str i, soiId := K ++ "::" ++ i,
          soiCreated := now, soiCreatedBy := account.userId,
          setO := D, setModified := now } := by
    unfold trashWriteFor
    rw [hoid]
    rfl
  have hfresh : freshTrashRecord (trashWriteFor account K now D)
      = ⟨K ++ "::" ++ i, K, .str i, D, now, account.userId, now⟩ := by
    rw [hw]
    rfl
  have hbody : trashPutBody st K (.ids [i]) = .ok [D] := by
    show Except.ok (fetchByIds (getColl st K) [i]) = .ok [D]
    rw [hfetch]
  have hops1 : trashPutOps account K (.ids [i]) now st
      = .ok [.bulkWriteTrash [trashWriteFor account K now D],
             .deleteOrigin K [(dget D "_id").getD Value.null]] := by
    unfold trashPutOps
    rw [hbody]
    rfl
  have hops2 : trashPutOps account K (.ids [i]) now st
      = .ok [.bulkWriteTrash [trashWriteFor account K now D],
             .deleteOrigin K [Value.str i]] := by
    rw [hops1, hoid]
  have htr1 : applyTrashWrite st.trash (trashWriteFor account K now D)
      = st.trash ++ [freshTrashRecord (trashWriteFor account K now D)] := by
    rw [applyTrashWrite, if_neg ?hc]
    case hc =>
      intro hx
      rcases List.any_eq_true.1 hx with ⟨r, hr, hmx⟩
      rw [hw] at hmx
      unfold trashWriteMatch at hmx
      exact htrash1 r hr (by simpa using hmx)
    rfl
  have happly1 : applyTrashOp st
      (.bulkWriteTrash [trashWriteFor account K now D])
      = { st with trash := (st.trash
            ++ [freshTrashRecord (trashWriteFor account K now D)]) } := by
    show ({ st with
        trash := applyTrashWrite st.trash (trashWriteFor account K now D) }
          : Store) = _
    rw [htr1]
  set C1 : List Doc := ((getColl st K).filter
      (fun d => ¬[Value.str i].contains ((dget d "_id").getD .null)))
    with hC1
  set F : TrashRecord :=
    ⟨K ++ "::" ++ i, K, .str i, D, now, account.userId, now⟩ with hF
  set stP : Store := { colls := setColl st.colls K C1,
                       trash := st.trash ++ [F] } with hstP
  have hput : trashPut account K (.ids [i]) now st = .ok stP := by
    unfold trashPut
    rw [hops2]
    show Except.ok _ = _
    congr 1
    show applyTrashOp (applyTrashOp st
        (.bulkWriteTrash [trashWriteFor account K now D]))
        (.deleteOrigin K [Value.str i]) = stP
    rw [happly1, hfresh]
    rfl
  have htidne : ¬(K ++ "::" ++ i) = "" := by
    intro hx
    have hlen := congrArg String.length hx
    rw [String.length_append, String.length_append] at hlen
    have h2 : ("::" : String).length = 2 := rfl
    have h0 : ("" : String).length = 0 := rfl
    rw [h2, h0] at hlen
    omega
  have hrids : restoreIds (.one (K ++ "::" ++ i)) = .ok [K ++ "::" ++ i] := by
    show (if K ++ "::" ++ i = "" then
        (Except.error (Err.err "Empty data set") : Except Err (List String))
      else .ok [K ++ "::" ++ i]) = .ok [K ++ "::" ++ i]
    rw [if_neg htidne]
  have hfilter : stP.trash.filter
      (fun r => [K ++ "::" ++ i].contains r.tid) = [F] := by
    show (st.trash ++ [F]).filter _ = [F]
    rw [List.filter_append]
    have hleft : st.trash.filter
        (fun r => [K ++ "::" ++ i].contains r.tid) = [] := by
      rw [List.filter_eq_nil_iff]
      intro r hr
      simp [htrash2 r hr]
    have hright : ([F] : List TrashRecord).filter
        (fun r => [K ++ "::" ++ i].contains r.tid) = [F] := by
      simp [hF]
    rw [hleft, hright]
    rfl
  have hopsR : trashRestoreOps (.one (K ++ "::" ++ i)) stP
      = .ok [.bulkInsert K [D], .deleteTrash [K ++ "::" ++ i]] := by
    unfold trashRestoreOps
    rw [hrids]
    show Except.ok _ = _
    congr 1
    show (groupByCol (stP.trash.filter
        (fun r => [K ++ "::" ++ i].contains r.tid))).map
        (fun p => RestoreOp.bulkInsert p.1 p.2)
      ++ [RestoreOp.deleteTrash [K ++ "::" ++ i]]
      = [RestoreOp.bulkInsert K [D], RestoreOp.deleteTrash [K ++ "::" ++ i]]
    rw [hfilter]
    rfl
  set C2 : List Doc := getColl stP K ++ [D] with hC2
  set T2 : List TrashRecord := (stP.trash.filter
      (fun r => ¬[K ++ "::" ++ i].contains r.tid)) with hT2
  set stR : Store := { colls := setColl stP.colls K C2,
                       trash := T2 } with hstR
  have hrestore : trashRestore (.one (K ++ "::" ++ i)) stP = .ok stR := by
    unfold trashRestore
    rw [hopsR]
    rfl
  refine ⟨stP, stR, hput, hrestore, ?_, ?_, hopsR, ?_⟩
  · show D ∈ getColl stR K
    rw [hstR]
    rw [getColl_setColl_self]
    exact List.mem_append.2 (Or.inr (by simp))
  · intro r hr
    rw [hstR] at hr
    have := (List.mem_filter.1 hr).2
    simpa using this
  · intro arg stx ops hops
    unfold trashRestoreOps at hops
    cases harg : restoreIds arg with
    | error e =>
      rw [harg] at hops
      exact absurd hops (by simp [Except.map])
    | ok ids =>
      rw [harg] at hops
      have hinj : (groupByCol (stx.trash.filter
            (fun r => ids.contains r.tid))).map
            (fun p => RestoreOp.bulkInsert p.1 p.2)
          ++ [.deleteTrash ids] = ops := by
        exact Except.ok.inj hops
      exact ⟨ids, hinj.symm, groupByCol_keys_nodup _⟩

/-- C6 witness: the round trip applied to a concrete store holding one
widgets document. -/
theorem trash_roundtrip_witness :
    ∃ st1 st2,
      trashPut ⟨"a1", "u1", false⟩ "widgets" (.ids ["w1"]) 7
          ⟨[("widgets",
             [[("_id", Value.str "w1"), ("name", Value.str "bolt")]])], []⟩
        = .ok st1 ∧
      trashRestore (.one ("widgets" ++ "::" ++ "w1")) st1 = .ok st2 ∧
      [("_id", Value.str "w1"), ("name", Value.str "bolt")]
        ∈ getColl st2 "widgets" := by
  obtain ⟨st1, st2, h1, h2, h3, _⟩ := trash_roundtrip ⟨"a1", "u1", false⟩
    "widgets" "w1" [("_id", .str "w1"), ("name", .str "bolt")] 7
    ⟨[("widgets", [[("_id", .str "w1"), ("name", .str "bolt")]])], []⟩
    (by decide) (by decide) (by decide) (by decide)
  exact ⟨st1, st2, h1, h2, h3⟩

/-- C8 (confirmed, modelled from the spec): the referential guard reports
an entry exactly for each descriptor whose membership probe hits, naming
that descriptor's collection and the referencing documents' ids; an empty
report lets the account-scoped delete proceed, a non-empty report refuses
the delete with the locked error carrying the report, deleting nothing. -/
theorem usedBy_veto_contract (account : Account) (st : Store) (col : String)
    (ids : List String) (ds : List RefDescriptor) :
    (∀ e, e ∈ checkConditions st ids ds ↔
      ∃ dsc ∈ ds, referencingDocs st ids dsc ≠ [] ∧
        e = (dsc.collection, (referencingDocs st ids dsc).map docIdStr)) ∧
    (checkConditions st ids ds = [] →
      removeGuarded account st col ids ds
        = .ok { st with colls := (setColl st.colls col
            ((getColl st col).filter
              (fun d => ¬removeMatch account.id ids d))) }) ∧
    (checkConditions st ids ds ≠ [] →
      removeGuarded account st col ids ds
        = .error (.locked (checkConditions st ids ds))) := by
  refine ⟨?_, ?_, ?_⟩
  · intro e
    unfold checkConditions usedBy
    rw [List.mem_filterMap]
    constructor
    · rintro ⟨dsc, hd, hf⟩
      by_cases hh : (referencingDocs st ids dsc).isEmpty
      · rw [if_pos hh] at hf
        cases hf
      · rw [if_neg hh] at hf
        refine ⟨dsc, hd, ?_, (Option.some.inj hf).symm⟩
        intro hx
        exact hh (by rw [hx]; rfl)
    · rintro ⟨dsc, hd, hne, he⟩
      refine ⟨dsc, hd, ?_⟩
      rw [if_neg (by
        intro hx
        exact hne (List.isEmpty_iff.1 hx))]
      rw [he]
  · intro h
    unfold removeGuarded
    rw [if_pos (by rw [h]; rfl)]
  · intro h
    unfold removeGuarded
    rw [if_neg (by
      intro hx
      exact h (List.isEmpty_iff.1 hx))]

/-- C8 witness: the spec's referential-veto scenario — a project document
referencing the candidate makes the guarded remove refuse with the report
naming project and the referencing document's id. -/
theorem usedBy_veto_contract_witness :
    removeGuarded ⟨"a1", "u1", false⟩
        ⟨[("project", [[("_id", .str "p1"), ("ownerId", .str "c1")]]),
          ("clients", [[("_id", .str "c1")]])], []⟩
        "clients" ["c1"] [⟨"project", "ownerId"⟩]
      = .error (.locked [("project", ["p1"])]) := by
  have h := (usedBy_veto_contract ⟨"a1", "u1", false⟩
    ⟨[("project", [[("_id", .str "p1"), ("ownerId", .str "c1")]]),
      ("clients", [[("_id", .str "c1")]])], []⟩
    "clients" ["c1"] [⟨"project", "ownerId"⟩]).2.2 (by decide)
  rw [h]
  decide

/-- C9 (code bug): evaluated at the failing input — a trash holding one
record for widgets id w1 — pluck succeeds but inserts the whole trash
record (composite _id, col, oid, o wrapper and audit fields) into the
origin collection rather than the snapshot o it holds, while leaving the
trash entry in place; the inserted document is not the original removed
document. The sound half of the claim also evaluates: an absent trash id
is the not-found error. -/
theorem pluck_inserts_wrapper :
    pluck ⟨[("widgets", [])],
        [⟨"widgets::w1", "widgets", .str "w1",
          [("_id", .str "w1"), ("name", .str "bolt")], 3, "u1", 3⟩]⟩
        "widgets" "widgets::w1"
      = .ok ⟨[("widgets",
            [[("_id", .str "widgets::w1"), ("col", .str "widgets"),
              ("oid", .str "w1"),
              ("o", .obj [("_id", .str "w1"), ("name", .str "bolt")]),
              ("_created", .time 3), ("_createdBy", .str "u1"),
              ("_modified", .time 3)]])],
          [⟨"widgets::w1", "widgets", .str "w1",
            [("_id", .str "w1"), ("name", .str "bolt")], 3, "u1", 3⟩]⟩ ∧
    ¬([("_id", Value.str "widgets::w1"), ("col", Value.str "widgets"),
       ("oid", Value.str "w1"),
       ("o", Value.obj [("_id", Value.str "w1"),
          ("name", Value.str "bolt")]),
       ("_created", Value.time 3), ("_createdBy", Value.str "u1"),
       ("_modified", Value.time 3)]
        = [("_id", Value.str "w1"), ("name", Value.str "bolt")]) ∧
    pluck ⟨[("widgets", [])],
        [⟨"widgets::w1", "widgets", .str "w1",
          [("_id", .str "w1"), ("name", .str "bolt")], 3, "u1", 3⟩]⟩
        "widgets" "nope"
      = .error (.err "Not found") := by
  exact ⟨by decide, by decide, by decide⟩

/-- C10 (confirmed): every invocation of Trash.get resolves the undeclared
identifier oid and throws a ReferenceError before issuing its query — for
every store and every argument values the result is the ReferenceError and
no trash records are returned. -/
theorem trashGet_always_referenceError :
    ∀ (st : Store) (account col idArg tidArg : Value),
      trashGet st account col idArg tidArg
        = .error (.referenceError "oid") := by
  intro st account col idArg tidArg
  rfl

end DataServer
